import Mathlib

/-!
Verification of the polarway DataFrame service core.

Shallow embedding of the handle registry (`polaroid-grpc/src/handles.rs`),
the external handle codec and provider (`polaroid-grpc/src/handle_provider.rs`),
the filesystem state store (`polaroid-grpc/src/state_store.rs`),
the LRU cache backend (`polarway-grpc/src/storage/cache.rs`),
the Parquet backend key handling (`polarway-grpc/src/storage/parquet_backend.rs`),
the hybrid storage (`polarway-grpc/src/storage/mod.rs`),
and the adaptive / parallel streaming readers
(`crates/polars-streaming-adaptive/src/{mmap_reader,adaptive_reader,parallel_stream}.rs`).

Rust `&str` / `String` values are modelled as `List Char`; machine integers
that cannot overflow in the modelled scenarios are modelled as `Nat`;
`std::time::Instant` is modelled as a `Nat` timestamp and `Duration` as `Nat`
(the code only uses `elapsed() > ttl`, i.e. saturating subtraction, which is
`Nat` subtraction); fallible Rust functions returning `Result` are modelled
with `Except`.
-/
/-- Rust string slices, modelled as lists of characters. -/
abbrev Str := List Char

/-- Error type of `polaroid-grpc/src/error.rs` (`PolaroidError`); only the
variants reached by the modelled code paths are included.  Each variant
carries the same payload as in the source (`HandleNotFound(String)` carries
the handle string, etc.); formatted diagnostic messages of `Internal` and
the payload of the filesystem fault are carried as strings. -/
inductive PolaroidError where
  | handleNotFound (handle : Str)
  | handleExpired (handle : Str)
  | ioFault (msg : Str)
  | internal (msg : Str)
deriving DecidableEq, Repr

/-- `DataFrameHandleInfo` from `handles.rs`: the per-handle record.  The
`handle` string itself is the map key, so it is not repeated here; `F` is the
type of frames (`Arc<DataFrame>` in the source, opaque for the registry). -/
structure DataFrameHandleInfo (F : Type) where
  dataframe : F
  created_at : Nat
  last_accessed : Nat
  ttl : Nat
deriving DecidableEq, Repr

/-- `DataFrameHandleInfo::is_expired`: `self.last_accessed.elapsed() > self.ttl`,
evaluated at the current time `now`. -/
def DataFrameHandleInfo.is_expired {F : Type} (info : DataFrameHandleInfo F) (now : Nat) : Bool :=
  decide (info.ttl < now - info.last_accessed)

/-- `DataFrameHandleInfo::touch`: `self.last_accessed = Instant::now()`. -/
def DataFrameHandleInfo.touch {F : Type} (info : DataFrameHandleInfo F) (now : Nat) :
    DataFrameHandleInfo F :=
  { info with last_accessed := now }

/-- The registry's `DashMap<String, DataFrameHandleInfo>`, modelled as a
finite-support partial map from handle strings to records. -/
def HandleMap (F : Type) := Str → Option (DataFrameHandleInfo F)

/-- Point update of the handle map (`DashMap::insert` / in-place mutation
through `get_mut`). -/
def HandleMap.insert {F : Type} (m : HandleMap F) (k : Str) (v : DataFrameHandleInfo F) :
    HandleMap F :=
  fun k' => if k' = k then some v else m k'

/-- `DashMap::remove`. -/
def HandleMap.remove {F : Type} (m : HandleMap F) (k : Str) : HandleMap F :=
  fun k' => if k' = k then none else m k'

/-- `HandleManager::get_dataframe` at time `now`: absent handle fails
`HandleNotFound`; an expired record is removed and fails `HandleExpired`;
otherwise `last_accessed` is updated to `now` and the frame is returned.
Returns the updated map together with the result. -/
def HandleManager.get_dataframe {F : Type} (m : HandleMap F) (now : Nat) (h : Str) :
    HandleMap F × Except PolaroidError F :=
  match m h with
  | none => (m, Except.error (PolaroidError.handleNotFound h))
  | some info =>
    if info.is_expired now then
      (m.remove h, Except.error (PolaroidError.handleExpired h))
    else
      (m.insert h (info.touch now), Except.ok info.dataframe)

/-- `HandleManager::heartbeat` at time `now`: absent handle fails
`HandleNotFound`; otherwise the record's `last_accessed` is set to `now`
(the source performs no expiry check here). -/
def HandleManager.heartbeat {F : Type} (m : HandleMap F) (now : Nat) (h : Str) :
    HandleMap F × Except PolaroidError Unit :=
  match m h with
  | none => (m, Except.error (PolaroidError.handleNotFound h))
  | some info => (m.insert h (info.touch now), Except.ok ())

/-- `HandleManager::drop_handle`: remove, failing `HandleNotFound` when absent. -/
def HandleManager.drop_handle {F : Type} (m : HandleMap F) (h : Str) :
    HandleMap F × Except PolaroidError Unit :=
  match m h with
  | none => (m, Except.error (PolaroidError.handleNotFound h))
  | some _ => (m.remove h, Except.ok ())

/-! External handle codec and provider (`polaroid-grpc/src/handle_provider.rs`). -/
/-- `ExternalHandleRef` from `handle_provider.rs`. -/
structure ExternalHandleRef where
  backend : Str
  key : Str
deriving DecidableEq, Repr

/-- Split a list at the first occurrence of `sep`: `some (before, after)` when
`sep` occurs, `none` otherwise.  This is the behaviour of one step of Rust's
`str::splitn(_, sep)` iterator. -/
def splitFirst (sep : Char) : Str → Option (Str × Str)
  | [] => none
  | c :: rest =>
    if c = sep then some ([], rest)
    else (splitFirst sep rest).map (fun p => (c :: p.1, p.2))

/-- `encode_external_handle`: `format!("ext:{backend}:{key}")`. -/
def encode_external_handle (backend key : Str) : Str :=
  "ext:".data ++ backend ++ ":".data ++ key

/-- `decode_external_handle`: `splitn(3, ':')`; the scheme must be `"ext"`,
then a backend part and a key part (the key keeps any further `':'`s).
Returns `none` exactly when the source returns `None` (wrong scheme, or
fewer than three parts). -/
def decode_external_handle (handle : Str) : Option ExternalHandleRef :=
  match splitFirst ':' handle with
  | none => none
  | some (scheme, rest) =>
    if scheme = "ext".data then
      match splitFirst ':' rest with
      | none => none
      | some (backend, key) => some ⟨backend, key⟩
    else none

/-- The external store's contents, key → stored frame (`F`), as visible to
`get_ipc` (a stored frame written by `put_ipc` decodes back to itself, §4.A;
a missing file fails with an `Io` error from `File::open`). -/
def ExtStore (F : Type) := Str → Option F

/-- `ExternalHandleProvider::get_dataframe`: parse the handle (failing
`HandleNotFound` with the handle string when it does not decode), reject
non-`"fs"` backends with `Internal`, then load from the store. -/
def ExternalHandleProvider.get_dataframe {F : Type} (store : ExtStore F) (h : Str) :
    Except PolaroidError F :=
  match decode_external_handle h with
  | none => Except.error (PolaroidError.handleNotFound h)
  | some href =>
    if href.backend ≠ "fs".data then
      Except.error (PolaroidError.internal ("Unsupported external backend: ".data ++ href.backend))
    else
      match store href.key with
      | some df => Except.ok df
      | none => Except.error (PolaroidError.ioFault href.key)

/-- `ExternalHandleProvider::drop_handle`: parse the handle (failing
`HandleNotFound` when it does not decode); non-`"fs"` backends succeed
without touching the store; otherwise unlink the key.  Returns the updated
store with the result. -/
def ExternalHandleProvider.drop_handle {F : Type} (store : ExtStore F) (h : Str) :
    ExtStore F × Except PolaroidError Unit :=
  match decode_external_handle h with
  | none => (store, Except.error (PolaroidError.handleNotFound h))
  | some href =>
    if href.backend ≠ "fs".data then (store, Except.ok ())
    else (fun k => if k = href.key then none else store k, Except.ok ())

/-! Filesystem state store (`polaroid-grpc/src/state_store.rs`).  `put_ipc`
is modelled as the trace of filesystem operations it performs, so that the
write discipline (direct write vs. write-temp-then-rename) is visible. -/
/-- A single filesystem operation. -/
inductive FsOp where
  | create (path : Str)
  | writeAll (path : Str) (contents : List Nat)
  | rename (src dst : Str)
deriving DecidableEq, Repr

/-- True exactly for `rename` operations. -/
def FsOp.isRename : FsOp → Bool
  | .rename _ _ => true
  | _ => false

/-- `FileSystemStateStore::key_path`: `base_dir.join(format!("{key}.ipc"))`. -/
def FileSystemStateStore.key_path (base key : Str) : Str :=
  base ++ "/".data ++ key ++ ".ipc".data

/-- The operations performed by `FileSystemStateStore::put_ipc` for a frame
whose Arrow IPC encoding is `bytes`: `File::create(path)` (which truncates an
existing file) followed by the `IpcWriter` writing the encoded bytes.  No
temporary file and no rename appear in the source. -/
def FileSystemStateStore.put_ipc_trace (base key : Str) (bytes : List Nat) : List FsOp :=
  [FsOp.create (FileSystemStateStore.key_path base key),
   FsOp.writeAll (FileSystemStateStore.key_path base key) bytes]

/-- Filesystem contents: path → file bytes. -/
def FsState := Str → Option (List Nat)

/-- Effect of one filesystem operation. -/
def FsState.apply (fs : FsState) : FsOp → FsState
  | .create p => fun q => if q = p then some [] else fs q
  | .writeAll p b => fun q => if q = p then some b else fs q
  | .rename s d => fun q => if q = d then fs s else if q = s then none else fs q

/-- Effect of a trace of filesystem operations, first operation first. -/
def FsState.run (fs : FsState) : List FsOp → FsState
  | [] => fs
  | op :: ops => (fs.apply op).run ops

/-! LRU cache backend (`polarway-grpc/src/storage/cache.rs`).  The
`lru::LruCache` is modelled as a capacity plus an entry list ordered
most-recent first; `put` of a present key updates and promotes it without
eviction, `put` of a fresh key at capacity evicts the tail (least-recent),
and `get` promotes on a hit. -/
structure LruCache (K V : Type) where
  cap : Nat
  entries : List (K × V)

/-- The keys currently in the cache, most-recent first. -/
def LruCache.keyList {K V : Type} (c : LruCache K V) : List K :=
  c.entries.map Prod.fst

/-- `LruCache::put`: remove any entry with the same key, push the new pair to
the front, and drop the least-recent entry when the length exceeds the
capacity. -/
def LruCache.put {K V : Type} [DecidableEq K] (c : LruCache K V) (k : K) (v : V) :
    LruCache K V :=
  let pushed := (k, v) :: c.entries.filter (fun e => decide (e.1 ≠ k))
  { c with entries := if c.cap < pushed.length then pushed.dropLast else pushed }

/-- `LruCache::get`: on a hit return the value and promote the entry to
most-recent; on a miss leave the cache unchanged. -/
def LruCache.get {K V : Type} [DecidableEq K] (c : LruCache K V) (k : K) :
    Option V × LruCache K V :=
  match c.entries.find? (fun e => decide (e.1 = k)) with
  | none => (none, c)
  | some e =>
    (some e.2, { c with entries := (k, e.2) :: c.entries.filter (fun e => decide (e.1 ≠ k)) })

/-- `CacheBackend`: the LRU cache together with its hit/miss counters. -/
structure CacheBackend (K V : Type) where
  cache : LruCache K V
  hits : Nat
  misses : Nat

/-- A fresh empty cache of the given capacity (the source derives the
capacity from a size-in-GB figure at a 10 MB-per-entry rule and floors it at
one; the capacity itself is what the cache logic consumes). -/
def CacheBackend.empty (K V : Type) (cap : Nat) : CacheBackend K V :=
  ⟨⟨cap, []⟩, 0, 0⟩

/-- `CacheBackend::store`: `cache.put(key, batch)`. -/
def CacheBackend.store {K V : Type} [DecidableEq K] (c : CacheBackend K V) (k : K) (v : V) :
    CacheBackend K V :=
  { c with cache := c.cache.put k v }

/-- `CacheBackend::load`: `cache.get(key)`, recording a hit or a miss. -/
def CacheBackend.load {K V : Type} [DecidableEq K] (c : CacheBackend K V) (k : K) :
    Option V × CacheBackend K V :=
  match c.cache.get k with
  | (none, l) => (none, { c with cache := l, misses := c.misses + 1 })
  | (some v, l) => (some v, { c with cache := l, hits := c.hits + 1 })

/-- Store a list of key/value pairs in order (no intervening loads). -/
def CacheBackend.storeAll {K V : Type} [DecidableEq K] (c : CacheBackend K V) :
    List (K × V) → CacheBackend K V
  | [] => c
  | e :: l => (c.store e.1 e.2).storeAll l

/-- Load a list of keys in order, recording for each whether it hit. -/
def CacheBackend.loadSeq {K V : Type} [DecidableEq K] (c : CacheBackend K V) :
    List K → List Bool
  | [] => []
  | k :: ks => (c.load k).1.isSome :: (c.load k).2.loadSeq ks

/-! Hybrid storage (`polarway-grpc/src/storage/mod.rs`). -/
/-- The two write tiers of `HybridStorage`. -/
inductive Tier where
  | cache
  | parquet
deriving DecidableEq, Repr

/-- Errors crossing the storage layer.  Tier writes fail with opaque
`Box<dyn Error>` values, modelled as messages.  The spec's §7 taxonomy also
names an error that reports a one-tier-only hybrid write carrying which tier
succeeded (`partStore` here); no such type exists anywhere in the source,
which is what C5 turns on. -/
inductive StorageErr where
  | message (msg : Str)
  | partStore (succeeded : Tier)
deriving DecidableEq, Repr

/-- True exactly for the spec's one-tier-only error, i.e. when the error
value indicates which tier succeeded. -/
def StorageErr.indicatesTier : StorageErr → Bool
  | .partStore _ => true
  | .message _ => false

/-- `HybridStorage::store` given the outcomes of the two tier writes:
`self.cache.store(key, batch.clone())?; self.cold_storage.store(key, batch)?; Ok(())`.
The cache write runs first; its failure propagates directly and the Parquet
write is then not attempted.  Returns the tiers attempted, in order, paired
with the result. -/
def HybridStorage.store (cacheRes coldRes : Except StorageErr Unit) :
    List Tier × Except StorageErr Unit :=
  match cacheRes with
  | .error e => ([Tier.cache], .error e)
  | .ok _ => ([Tier.cache, Tier.parquet], coldRes)

/-! Adaptive and parallel streaming readers
(`crates/polars-streaming-adaptive/src/{mmap_reader,adaptive_reader,parallel_stream}.rs`).
Frames are modelled as lists of rows (`List ρ`); `DataFrame::height` is the
list length, `slice(offset, len)` is drop-then-take, `vstack` is append.
The error type of the crate (its `error.rs` module) is reconstructed from
the variants the reader modules construct: `NoData`, `InvalidConfig(String)`,
`Compute(String)`, `Polars(...)`. -/
inductive StreamingError where
  | noData
  | invalidConfig (msg : Str)
  | compute (msg : Str)
  | polarsFault (msg : Str)
deriving DecidableEq, Repr

/-- `MmapParquetReader::num_row_groups`: a file-size heuristic, not Parquet
metadata — `(file_size / (64 * 1024 * 1024)).max(1)`. -/
def MmapParquetReader.num_row_groups (fileSize : Nat) : Nat :=
  max (fileSize / (64 * 1024 * 1024)) 1

/-- `MmapParquetReader::total_rows`: a file-size heuristic —
`(file_size / (1024 * 1024)) * 10_000`. -/
def MmapParquetReader.total_rows (fileSize : Nat) : Nat :=
  (fileSize / (1024 * 1024)) * 10000

/-- `MmapParquetReader::row_group_num_rows`: out-of-range index fails
`InvalidConfig`; otherwise the heuristic `total_rows / num_row_groups`. -/
def MmapParquetReader.row_group_num_rows (fileSize idx : Nat) :
    Except StreamingError Nat :=
  if MmapParquetReader.num_row_groups fileSize ≤ idx then
    Except.error (StreamingError.invalidConfig "row group index out of bounds".data)
  else
    Except.ok (MmapParquetReader.total_rows fileSize / MmapParquetReader.num_row_groups fileSize)

/-- `MmapParquetReader::read_row_group`: reads the whole file (its true rows
are `fileRows`), then slices `[idx * rows_per_group, min((idx + 1) *
rows_per_group, height))`, returning an empty frame when the start is past
the end. -/
def MmapParquetReader.read_row_group {ρ : Type} (fileSize : Nat) (fileRows : List ρ)
    (idx : Nat) : Except StreamingError (List ρ) :=
  if MmapParquetReader.num_row_groups fileSize ≤ idx then
    Except.error (StreamingError.invalidConfig "row group index out of bounds".data)
  else
    match MmapParquetReader.row_group_num_rows fileSize idx with
    | Except.error e => Except.error e
    | Except.ok rowsPerGroup =>
      let start := idx * rowsPerGroup
      let stop := min ((idx + 1) * rowsPerGroup) fileRows.length
      if fileRows.length ≤ start then Except.ok []
      else Except.ok ((fileRows.drop start).take (stop - start))

/-- One step of `AdaptiveBatchIterator::next`'s `read_row_group` helper:
read the row group, then apply the pushdown mask filter when configured. -/
def AdaptiveBatchIterator.read_one {ρ : Type} (fileSize : Nat) (fileRows : List ρ)
    (pred : Option (ρ → Bool)) (idx : Nat) : Except StreamingError (List ρ) :=
  match MmapParquetReader.read_row_group fileSize fileRows idx with
  | Except.error e => Except.error e
  | Except.ok df =>
    match pred with
    | none => Except.ok df
    | some p => Except.ok (df.filter p)

/-- The batch sequence produced by `AdaptiveBatchIterator` starting at row
group `idx`: stop when the cursor reaches `num_row_groups`; on the first
error, yield it and terminate. -/
def AdaptiveBatchIterator.run {ρ : Type} (fileSize : Nat) (fileRows : List ρ)
    (pred : Option (ρ → Bool)) (idx : Nat) :
    List (Except StreamingError (List ρ)) :=
  if h : idx < MmapParquetReader.num_row_groups fileSize then
    match AdaptiveBatchIterator.read_one fileSize fileRows pred idx with
    | Except.error e => [Except.error e]
    | Except.ok df => Except.ok df :: AdaptiveBatchIterator.run fileSize fileRows pred (idx + 1)
  else []
termination_by MmapParquetReader.num_row_groups fileSize - idx

/-- `AdaptiveStreamingReader::collect_batches_adaptive`: the full iterator,
cursor starting at row group `0`. -/
def AdaptiveStreamingReader.collect_batches_adaptive {ρ : Type} (fileSize : Nat)
    (fileRows : List ρ) (pred : Option (ρ → Bool)) :
    List (Except StreamingError (List ρ)) :=
  AdaptiveBatchIterator.run fileSize fileRows pred 0

/-- Sum of the heights of the successfully yielded batches. -/
def heightsSum {ρ : Type} (items : List (Except StreamingError (List ρ))) : Nat :=
  (items.map (fun x => match x with | Except.ok df => df.length | Except.error _ => 0)).sum

/-- Rust's `Iterator::collect::<Result<Vec<_>, _>>`: all payloads in order,
or the first error. -/
def collectResults {ε α : Type} : List (Except ε α) → Except ε (List α)
  | [] => Except.ok []
  | Except.error e :: _ => Except.error e
  | Except.ok a :: rest =>
    match collectResults rest with
    | Except.error e => Except.error e
    | Except.ok l => Except.ok (a :: l)

/-- The vertical stack `batches[0]` then `vstack_mut` of the rest (all
batches of one stream share the source schema, so the append never fails). -/
def vstackAll {ρ : Type} : List (List ρ) → List ρ
  | [] => []
  | b :: rest => rest.foldl (fun acc x => acc ++ x) b

/-- `ParallelStreamReader::collect_concatenated` applied to the sequence of
items the bounded channel delivered:
`self.collect_parallel().collect::<Result<Vec<_>>>()?`, then `NoData` on an
empty batch list, then the vertical stack. -/
def ParallelStreamReader.collect_concatenated {ρ : Type}
    (items : List (Except StreamingError (List ρ))) :
    Except StreamingError (List ρ) :=
  match collectResults items with
  | Except.error e => Except.error e
  | Except.ok batches =>
    if batches.isEmpty then Except.error StreamingError.noData
    else Except.ok (vstackAll batches)

/-- Discriminates `Ok` items of the stream (`Result::is_ok`). -/
def isOkItem {ε α : Type} : Except ε α → Bool
  | Except.ok _ => true
  | Except.error _ => false

/-! Parquet backend key handling
(`polarway-grpc/src/storage/parquet_backend.rs`). -/
/-- The per-character replacement performed by `ParquetBackend::sanitize_key`:
`replace(['/', '\\', '.'], "_")` followed by `replace(' ', "_")` maps each
path separator, dot and space character to `'_'` and keeps every other
character.  (The in-file test pins this behaviour:
`"../../etc/passwd"` sanitizes to `"______etc_passwd"`, one underscore per
replaced character.) -/
def ParquetBackend.sanitizeChar (c : Char) : Char :=
  if c = '/' ∨ c = '\\' ∨ c = '.' ∨ c = ' ' then '_' else c

/-- `ParquetBackend::sanitize_key`: apply the character replacement and
reject an empty result. -/
def ParquetBackend.sanitize_key (key : Str) : Except Str Str :=
  let sanitized := key.map ParquetBackend.sanitizeChar
  if sanitized.isEmpty then
    Except.error "Invalid key: empty after sanitization".data
  else Except.ok sanitized

/-- `ParquetBackend::key_to_path`:
`base_path.join(format!("{sanitized}.parquet"))`.  This is the only path at
which `store` creates a file (`File::create(&path)`). -/
def ParquetBackend.key_to_path (base key : Str) : Except Str Str :=
  match ParquetBackend.sanitize_key key with
  | Except.error e => Except.error e
  | Except.ok s => Except.ok (base ++ "/".data ++ s ++ ".parquet".data)

/-- The sanitization C7 describes, taken verbatim from the spec's words:
each occurrence of the substring `".."` collapses into one `'_'`, and path
separators and whitespace characters are each replaced by `'_'`. -/
def claimDotDot : Str → Str
  | [] => []
  | [c] => [c]
  | c1 :: c2 :: rest =>
    if c1 = '.' ∧ c2 = '.' then '_' :: claimDotDot rest
    else c1 :: claimDotDot (c2 :: rest)
termination_by l => l.length

/-- Spec-described sanitization (see `claimDotDot`). -/
def claimSanitize (key : Str) : Str :=
  (claimDotDot key).map (fun c => if c = '/' ∨ c = '\\' ∨ c.isWhitespace then '_' else c)

/-- A path that names an entry directly inside `base`: `base`, a separator,
and a single nonempty component free of separators that is neither `"."` nor
`".."` — such a path can never escape `base`. -/
def isDirectChildOf (base p : Str) : Prop :=
  ∃ name, p = base ++ "/".data ++ name ∧ name ≠ [] ∧ '/' ∉ name ∧ '\\' ∉ name ∧
    name ≠ ".".data ∧ name ≠ "..".data

/-- Helper: `get_dataframe` on an absent handle fails `HandleNotFound`. -/
theorem HandleManager.get_dataframe_absent {F : Type} (m : HandleMap F) (now : Nat) (h : Str)
    (hnone : m h = none) :
    HandleManager.get_dataframe m now h = (m, Except.error (PolaroidError.handleNotFound h)) := by
  simp [HandleManager.get_dataframe, hnone]

/-- C1: a `get` on a registered handle whose record satisfies
`now - last_accessed > ttl` removes the record and fails `HandleExpired`,
and any subsequent `get` of the same handle fails `HandleNotFound`. -/
theorem C1_get_expired_removes_then_not_found {F : Type} (m : HandleMap F) (now : Nat)
    (h : Str) (info : DataFrameHandleInfo F) (hm : m h = some info)
    (hexp : info.ttl < now - info.last_accessed) :
    (HandleManager.get_dataframe m now h).2 = Except.error (PolaroidError.handleExpired h) ∧
    (HandleManager.get_dataframe m now h).1 h = none ∧
    ∀ now' : Nat,
      (HandleManager.get_dataframe (HandleManager.get_dataframe m now h).1 now' h).2 =
        Except.error (PolaroidError.handleNotFound h) := by
  have hexpired : info.is_expired now = true := by
    simp [DataFrameHandleInfo.is_expired, hexp]
  refine ⟨?_, ?_, ?_⟩
  · simp [HandleManager.get_dataframe, hm, hexpired]
  · simp [HandleManager.get_dataframe, hm, hexpired, HandleMap.remove]
  · intro now'
    have h1 : (HandleManager.get_dataframe m now h).1 h = none := by
      simp [HandleManager.get_dataframe, hm, hexpired, HandleMap.remove]
    rw [HandleManager.get_dataframe_absent _ now' h h1]

/-- Witness for C1 at a concrete registry: one handle `"h1"`, record with
`last_accessed = 2`, `ttl = 3`, queried at `now = 10` (so `10 - 2 > 3`). -/
theorem C1_witness :
    (fun k => if k = "h1".data then
        some (⟨(42 : Nat), 2, 2, 3⟩ : DataFrameHandleInfo Nat) else none) "h1".data =
      some (⟨(42 : Nat), 2, 2, 3⟩ : DataFrameHandleInfo Nat) ∧
    (3 : Nat) < 10 - 2 ∧
    (HandleManager.get_dataframe
      (fun k => if k = "h1".data then
        some (⟨(42 : Nat), 2, 2, 3⟩ : DataFrameHandleInfo Nat) else none) 10 "h1".data).2 =
      Except.error (PolaroidError.handleExpired "h1".data) := by
  refine ⟨rfl, by norm_num, ?_⟩
  exact (C1_get_expired_removes_then_not_found
    (fun k => if k = "h1".data then
      some (⟨(42 : Nat), 2, 2, 3⟩ : DataFrameHandleInfo Nat) else none)
    10 "h1".data ⟨(42 : Nat), 2, 2, 3⟩ rfl (by norm_num)).1

/-- C6 counterexample: a registry holding handle `"h1"` with
`last_accessed = 2`, `ttl = 3`, at time `now = 10`: the record is expired
(`10 - 2 > 3`), yet `heartbeat` succeeds with `Ok(())` instead of failing
`HandleExpired` — the source performs no expiry check in `heartbeat`. -/
theorem C6_counterexample_heartbeat_ignores_expiry :
    (fun k => if k = "h1".data then
        some (⟨(42 : Nat), 2, 2, 3⟩ : DataFrameHandleInfo Nat) else none) "h1".data =
      some (⟨(42 : Nat), 2, 2, 3⟩ : DataFrameHandleInfo Nat) ∧
    (3 : Nat) < 10 - 2 ∧
    (HandleManager.heartbeat
      (fun k => if k = "h1".data then
        some (⟨(42 : Nat), 2, 2, 3⟩ : DataFrameHandleInfo Nat) else none) 10 "h1".data).2 =
      Except.ok () := by
  exact ⟨rfl, by norm_num, rfl⟩

/-- C6 amended: `heartbeat` refreshes `last_accessed` without touching the
frame and fails `HandleNotFound` when the handle is absent; it performs no
expiry check, so a present record is refreshed (and thereby revived) even
when `now - last_accessed > ttl`. -/
theorem C6_heartbeat_refreshes_no_expiry_check {F : Type} (m : HandleMap F) (now : Nat)
    (h : Str) :
    (m h = none →
      HandleManager.heartbeat m now h = (m, Except.error (PolaroidError.handleNotFound h))) ∧
    (∀ info : DataFrameHandleInfo F, m h = some info →
      (HandleManager.heartbeat m now h).2 = Except.ok () ∧
      (HandleManager.heartbeat m now h).1 h =
        some { info with last_accessed := now } ∧
      ((HandleManager.heartbeat m now h).1 h).map DataFrameHandleInfo.dataframe =
        some info.dataframe) := by
  constructor
  · intro hnone
    simp [HandleManager.heartbeat, hnone]
  · intro info hsome
    refine ⟨?_, ?_, ?_⟩
    · simp [HandleManager.heartbeat, hsome]
    · simp [HandleManager.heartbeat, hsome, HandleMap.insert, DataFrameHandleInfo.touch]
    · simp [HandleManager.heartbeat, hsome, HandleMap.insert, DataFrameHandleInfo.touch]

theorem splitFirst_append_of_not_mem (sep : Char) (l1 l2 : Str) (h : sep ∉ l1) :
    splitFirst sep (l1 ++ sep :: l2) = some (l1, l2) := by
  induction l1 with
  | nil => simp [splitFirst]
  | cons c rest ih =>
    have hc : c ≠ sep := fun hceq => h (by simp [hceq])
    have hrest : sep ∉ rest := fun hmem => h (List.mem_cons_of_mem _ hmem)
    simp [splitFirst, hc, ih hrest]

theorem splitFirst_eq_some (sep : Char) (l a b : Str) (h : splitFirst sep l = some (a, b)) :
    l = a ++ sep :: b := by
  induction l generalizing a b with
  | nil => simp [splitFirst] at h
  | cons c rest ih =>
    by_cases hc : c = sep
    · simp [splitFirst, hc] at h
      simp [← h.1, ← h.2, hc]
    · simp only [splitFirst, if_neg hc, Option.map_eq_some'] at h
      obtain ⟨⟨a', b'⟩, hsplit, heq⟩ := h
      obtain ⟨ha, hb⟩ := Prod.mk.injEq .. ▸ heq
      simp only [← ha, ← hb]
      simpa using congrArg (c :: ·) (ih a' b' hsplit)

/-- C8: for backend and key strings free of `':'`, decoding an encoded
external handle returns exactly the original backend and key. -/
theorem C8_external_handle_roundtrip (backend key : Str)
    (hb : ':' ∉ backend) (hk : ':' ∉ key) :
    decode_external_handle (encode_external_handle backend key) =
      some ⟨backend, key⟩ := by
  have h1 : encode_external_handle backend key =
      "ext".data ++ ':' :: (backend ++ ':' :: key) := by
    simp [encode_external_handle]
  have hx : ':' ∉ "ext".data := by decide
  rw [decode_external_handle, h1, splitFirst_append_of_not_mem ':' _ _ hx]
  simp [splitFirst_append_of_not_mem ':' backend key hb]

/-- Witness for C8 at `backend = "fs"`, `key = "k1"`. -/
theorem C8_witness :
    decode_external_handle (encode_external_handle "fs".data "k1".data) =
      some ⟨"fs".data, "k1".data⟩ :=
  C8_external_handle_roundtrip "fs".data "k1".data (by decide) (by decide)

/-- Decoding succeeds only on handles that start with `"ext:"` and contain at
least two `':'` characters (three `splitn` parts). -/
theorem decode_some_implies_shape (h : Str) (r : ExternalHandleRef)
    (hdec : decode_external_handle h = some r) :
    "ext:".data <+: h ∧ 2 ≤ h.count ':' := by
  unfold decode_external_handle at hdec
  cases h1 : splitFirst ':' h with
  | none => rw [h1] at hdec; simp at hdec
  | some p =>
    obtain ⟨scheme, rest⟩ := p
    rw [h1] at hdec
    by_cases hs : scheme = "ext".data
    · cases h2 : splitFirst ':' rest with
      | none => simp [hs, h2] at hdec
      | some q =>
        obtain ⟨backend, key⟩ := q
        have hh : h = scheme ++ ':' :: rest := splitFirst_eq_some ':' h scheme rest h1
        have hr : rest = backend ++ ':' :: key := splitFirst_eq_some ':' rest backend key h2
        constructor
        · rw [hh, hs]
          exact ⟨backend ++ ':' :: key, by simp [hr]⟩
        · rw [hh, hr]
          simp [List.count_append, List.count_cons]
          omega
    · simp [hs] at hdec

/-- C10: in external mode, a handle string that does not start with `"ext:"`
or has fewer than three `':'`-separated parts makes both `get_dataframe` and
`drop_handle` fail `HandleNotFound` carrying that handle string. -/
theorem C10_unparseable_handle_not_found {F : Type} (store : ExtStore F) (h : Str)
    (hcond : ¬ ("ext:".data <+: h) ∨ h.count ':' < 2) :
    ExternalHandleProvider.get_dataframe store h =
      Except.error (PolaroidError.handleNotFound h) ∧
    (ExternalHandleProvider.drop_handle store h).2 =
      Except.error (PolaroidError.handleNotFound h) := by
  have hdec : decode_external_handle h = none := by
    cases hd : decode_external_handle h with
    | none => rfl
    | some r =>
      obtain ⟨hpre, hcnt⟩ := decode_some_implies_shape h r hd
      rcases hcond with hc | hc
      · exact absurd hpre hc
      · omega
  constructor
  · simp [ExternalHandleProvider.get_dataframe, hdec]
  · simp [ExternalHandleProvider.drop_handle, hdec]

/-- Witness for C10 at the concrete handle `"bogus"` (no `"ext:"` prefix). -/
theorem C10_witness :
    (¬ ("ext:".data <+: "bogus".data) ∨ ("bogus".data).count ':' < 2) ∧
    ExternalHandleProvider.get_dataframe (fun _ => (none : Option Nat)) "bogus".data =
      Except.error (PolaroidError.handleNotFound "bogus".data) := by
  refine ⟨Or.inl (by decide), ?_⟩
  exact (C10_unparseable_handle_not_found (fun _ => (none : Option Nat)) "bogus".data
    (Or.inl (by decide))).1

/-- C3 counterexample: the trace of a concrete `put` (`base = "base"`,
`key = "k1"`, bytes `[1, 2]`) contains no rename operation at all, so the
claimed write-temp-then-rename scheme is not what the code does. -/
theorem C3_counterexample_no_rename :
    (FileSystemStateStore.put_ipc_trace "base".data "k1".data [1, 2]).any FsOp.isRename =
      false := by
  decide

/-- C3 amended: `put` writes the frame's Arrow IPC bytes directly to
`base_dir/<key>.ipc` — `File::create` (truncate) followed by the write, with
no temporary file and no rename — so a `put` to an existing key replaces its
bytes, and no other path is touched. -/
theorem C3_put_ipc_direct_write (fs : FsState) (base key : Str) (bytes : List Nat) :
    (fs.run (FileSystemStateStore.put_ipc_trace base key bytes))
        (FileSystemStateStore.key_path base key) = some bytes ∧
    (∀ q : Str, q ≠ FileSystemStateStore.key_path base key →
      (fs.run (FileSystemStateStore.put_ipc_trace base key bytes)) q = fs q) ∧
    (FileSystemStateStore.put_ipc_trace base key bytes).any FsOp.isRename = false := by
  refine ⟨?_, ?_, ?_⟩
  · simp [FileSystemStateStore.put_ipc_trace, FsState.run, FsState.apply]
  · intro q hq
    simp [FileSystemStateStore.put_ipc_trace, FsState.run, FsState.apply, hq]
  · simp [FileSystemStateStore.put_ipc_trace, FsOp.isRename]

/-- Witness for the amended C3: starting from a filesystem where
`base/k1.ipc` already holds `[9]`, the `put` trace replaces it with `[1, 2]`
and leaves the unrelated path `"other"` untouched. -/
theorem C3_witness :
    FsState.run
      (fun p => if p = FileSystemStateStore.key_path "base".data "k1".data then
        some [9] else none)
      (FileSystemStateStore.put_ipc_trace "base".data "k1".data [1, 2])
      (FileSystemStateStore.key_path "base".data "k1".data) = some [1, 2] ∧
    FsState.run
      (fun p => if p = FileSystemStateStore.key_path "base".data "k1".data then
        some [9] else none)
      (FileSystemStateStore.put_ipc_trace "base".data "k1".data [1, 2])
      "other".data = none := by
  have h := C3_put_ipc_direct_write
    (fun p => if p = FileSystemStateStore.key_path "base".data "k1".data then
      some [9] else none) "base".data "k1".data [1, 2]
  refine ⟨h.1, ?_⟩
  have h2 := h.2.1 "other".data (by decide)
  rw [h2]
  decide

theorem take_append_take (n : Nat) {α : Type} (a b : List α) :
    (a ++ b.take n).take n = (a ++ b).take n := by
  rw [List.take_append_eq_append_take, List.take_append_eq_append_take, List.take_take]
  congr 2
  omega

/-- A `put` of a fresh key on a cache within capacity conses the pair and
truncates to the capacity. -/
theorem LruCache.put_fresh {K V : Type} [DecidableEq K] (c : LruCache K V) (k : K) (v : V)
    (hfresh : k ∉ c.keyList) (hlen : c.entries.length ≤ c.cap) :
    (c.put k v).entries = ((k, v) :: c.entries).take c.cap ∧ (c.put k v).cap = c.cap := by
  have hfilter : c.entries.filter (fun e => decide (e.1 ≠ k)) = c.entries := by
    apply List.filter_eq_self.2
    intro e he
    simp only [decide_eq_true_eq]
    intro hek
    exact hfresh (hek ▸ List.mem_map_of_mem Prod.fst he)
  unfold LruCache.put
  simp only [hfilter]
  constructor
  · by_cases hcap : c.cap < c.entries.length + 1
    · have hc : c.entries.length = c.cap := by omega
      simp only [List.length_cons, if_pos (by simpa using hcap)]
      rw [List.dropLast_eq_take]
      simp [hc]
    · simp only [List.length_cons, if_neg hcap]
      rw [List.take_of_length_le]
      simp only [List.length_cons]
      omega
  · by_cases hcap : c.cap < c.entries.length + 1 <;> simp [hcap]

/-- Storing a list of pairwise-distinct fresh keys conses them (most recent
first) and truncates the entry list to the capacity. -/
theorem CacheBackend.storeAll_entries {K V : Type} [DecidableEq K] (c : CacheBackend K V)
    (l : List (K × V)) (hnodup : (l.map Prod.fst).Nodup)
    (hfresh : ∀ k ∈ l.map Prod.fst, k ∉ c.cache.keyList)
    (hlen : c.cache.entries.length ≤ c.cache.cap) :
    (c.storeAll l).cache.entries = (l.reverse ++ c.cache.entries).take c.cache.cap ∧
    (c.storeAll l).cache.cap = c.cache.cap := by
  induction l generalizing c with
  | nil =>
    refine ⟨?_, rfl⟩
    show c.cache.entries = _
    simp only [List.reverse_nil, List.nil_append]
    exact (List.take_of_length_le hlen).symm
  | cons e l' ih =>
    have hfresh0 : e.1 ∉ c.cache.keyList := hfresh e.1 (by simp)
    have hput := LruCache.put_fresh c.cache e.1 e.2 hfresh0 hlen
    have hstore_cache : (c.store e.1 e.2).cache = c.cache.put e.1 e.2 := rfl
    have hnodup' : (l'.map Prod.fst).Nodup := (List.nodup_cons.1 (by simpa using hnodup)).2
    have hhead : e.1 ∉ l'.map Prod.fst := (List.nodup_cons.1 (by simpa using hnodup)).1
    have hfresh' : ∀ k ∈ l'.map Prod.fst, k ∉ (c.store e.1 e.2).cache.keyList := by
      intro k hk hkmem
      rw [hstore_cache] at hkmem
      unfold LruCache.keyList at hkmem
      rw [hput.1] at hkmem
      rcases List.mem_map.1 hkmem with ⟨x, hx, hxk⟩
      have hx' : x ∈ (e.1, e.2) :: c.cache.entries := List.take_subset _ _ hx
      rcases List.mem_cons.1 hx' with hx1 | hx2
      · have hek : e.1 = k := by rw [hx1] at hxk; simpa using hxk
        exact hhead (hek ▸ hk)
      · exact hfresh k (by simp [hk]) (hxk ▸ List.mem_map_of_mem Prod.fst hx2)
    have hlen2 : (c.store e.1 e.2).cache.entries.length ≤ (c.store e.1 e.2).cache.cap := by
      rw [hstore_cache, hput.1, hput.2, List.length_take]
      omega
    have hres := ih (c.store e.1 e.2) hnodup' hfresh' hlen2
    have hcapeq : (c.store e.1 e.2).cache.cap = c.cache.cap := by
      rw [hstore_cache]; exact hput.2
    refine ⟨?_, ?_⟩
    · show ((c.store e.1 e.2).storeAll l').cache.entries = _
      rw [hres.1, hcapeq, hstore_cache, hput.1]
      rw [take_append_take]
      have hsplit : l'.reverse ++ (e.1, e.2) :: c.cache.entries =
          (e :: l').reverse ++ c.cache.entries := by
        simp
      rw [hsplit]
    · show ((c.store e.1 e.2).storeAll l').cache.cap = _
      rw [hres.2, hcapeq]

/-- A `get` never changes which keys are present (hit promotes, miss is a
no-op). -/
theorem LruCache.get_keyList_mem {K V : Type} [DecidableEq K] (c : LruCache K V) (k a : K) :
    a ∈ ((c.get k).2).keyList ↔ a ∈ c.keyList := by
  unfold LruCache.get
  cases hf : c.entries.find? (fun e => decide (e.1 = k)) with
  | none => rfl
  | some e =>
    have hek : e.1 = k := by
      have := List.find?_some hf
      simpa using this
    have hkmem : k ∈ c.keyList :=
      hek ▸ List.mem_map_of_mem Prod.fst (List.mem_of_find?_eq_some hf)
    simp only [LruCache.keyList, List.map_cons, List.mem_cons]
    constructor
    · rintro (rfl | hmem)
      · exact hkmem
      · rcases List.mem_map.1 hmem with ⟨x, hx, hxa⟩
        exact hxa ▸ List.mem_map_of_mem Prod.fst (List.mem_of_mem_filter hx)
    · intro hmem
      by_cases hak : a = k
      · exact Or.inl hak
      · right
        rcases List.mem_map.1 hmem with ⟨x, hx, hxa⟩
        refine List.mem_map.2 ⟨x, List.mem_filter.2 ⟨hx, ?_⟩, hxa⟩
        simp only [decide_eq_true_eq]
        exact fun hxk => hak (hxa ▸ hxk ▸ rfl)

/-- A `get` hits exactly when the key is present. -/
theorem LruCache.get_isSome {K V : Type} [DecidableEq K] (c : LruCache K V) (k : K) :
    ((c.get k).1).isSome = true ↔ k ∈ c.keyList := by
  unfold LruCache.get
  cases hf : c.entries.find? (fun e => decide (e.1 = k)) with
  | none =>
    simp only [Option.isSome_none, Bool.false_eq_true, false_iff]
    intro hmem
    rcases List.mem_map.1 hmem with ⟨x, hx, hxk⟩
    have := List.find?_eq_none.1 hf x hx
    simp [hxk] at this
  | some e =>
    simp only [Option.isSome_some, true_iff]
    have hek : e.1 = k := by simpa using List.find?_some hf
    exact hek ▸ List.mem_map_of_mem Prod.fst (List.mem_of_find?_eq_some hf)

/-- `CacheBackend::load` forwards the `get` result and its cache state. -/
theorem CacheBackend.load_spec {K V : Type} [DecidableEq K] (c : CacheBackend K V) (k : K) :
    (c.load k).1 = (c.cache.get k).1 ∧ (c.load k).2.cache = (c.cache.get k).2 := by
  unfold CacheBackend.load
  rcases hg : c.cache.get k with ⟨r, l⟩
  cases r <;> simp

/-- A hit in `get` promotes the key (with its value) to most-recent. -/
theorem LruCache.get_hit_head {K V : Type} [DecidableEq K] (c : LruCache K V) (k : K) (v : V)
    (h : (c.get k).1 = some v) : ((c.get k).2).entries.head? = some (k, v) := by
  unfold LruCache.get at h ⊢
  cases hf : c.entries.find? (fun e => decide (e.1 = k)) with
  | none => rw [hf] at h; simp at h
  | some e =>
    rw [hf] at h
    simp only [Option.some.injEq] at h
    simp [h]

/-- Loading a list of keys that are all present hits on every one. -/
theorem CacheBackend.loadSeq_all_hits {K V : Type} [DecidableEq K] (c : CacheBackend K V)
    (ks : List K) (hmem : ∀ k ∈ ks, k ∈ c.cache.keyList) :
    c.loadSeq ks = List.replicate ks.length true := by
  induction ks generalizing c with
  | nil => rfl
  | cons k ks' ih =>
    have hload := CacheBackend.load_spec c k
    have hhit : ((c.load k).1).isSome = true := by
      rw [hload.1]
      exact (LruCache.get_isSome c.cache k).2 (hmem k (by simp))
    show ((c.load k).1).isSome :: ((c.load k).2).loadSeq ks' = _
    rw [hhit, ih]
    · simp [List.replicate_succ]
    · intro a ha
      rw [hload.2]
      exact (LruCache.get_keyList_mem c.cache k a).2 (hmem a (by simp [ha]))

/-- C2: after storing `N + 1` distinct keys in order into an empty cache of
capacity `N` with no intervening loads, loading them in order misses on the
first stored key and hits on every other; a load hit promotes the key to
most-recent; and storing an already-present key evicts nothing. -/
theorem C2_lru_fill_evicts_only_first (K V : Type) [DecidableEq K] (N : Nat) (hN : 0 < N)
    (l : List (K × V)) (hlen : l.length = N + 1) (hnodup : (l.map Prod.fst).Nodup) :
    CacheBackend.loadSeq (CacheBackend.storeAll (CacheBackend.empty K V N) l)
        (l.map Prod.fst) = false :: List.replicate N true ∧
    (∀ (c : CacheBackend K V) (k : K) (v : V), (c.load k).1 = some v →
      ((c.load k).2).cache.entries.head? = some (k, v)) ∧
    (∀ (c : CacheBackend K V) (k : K) (v : V) (a : K),
      c.cache.entries.length ≤ c.cache.cap → k ∈ c.cache.keyList →
      a ∈ c.cache.keyList → a ∈ ((c.store k v).cache.keyList)) := by
  refine ⟨?_, ?_, ?_⟩
  · cases l with
    | nil => simp at hlen
    | cons p l' =>
      have hlen' : l'.length = N := by simpa using hlen
      have hentries : ((CacheBackend.empty K V N).storeAll (p :: l')).cache.entries =
          l'.reverse := by
        have h := CacheBackend.storeAll_entries (CacheBackend.empty K V N) (p :: l')
          hnodup (by intro k _ hk; simp [CacheBackend.empty, LruCache.keyList] at hk)
          (by simp [CacheBackend.empty])
        rw [h.1]
        show ((p :: l').reverse ++ _).take N = _
        simp only [CacheBackend.empty, List.append_nil, List.reverse_cons]
        rw [← hlen', ← List.length_reverse l', List.take_left]
      have hkeys : ((CacheBackend.empty K V N).storeAll (p :: l')).cache.keyList =
          (l'.map Prod.fst).reverse := by
        unfold LruCache.keyList
        rw [hentries, List.map_reverse]
      have hhead : p.1 ∉ l'.map Prod.fst := (List.nodup_cons.1 (by simpa using hnodup)).1
      set s := (CacheBackend.empty K V N).storeAll (p :: l') with hs
      show ((s.load p.1).1).isSome :: ((s.load p.1).2).loadSeq (l'.map Prod.fst) = _
      have hload := CacheBackend.load_spec s p.1
      have hmiss : ((s.load p.1).1).isSome = false := by
        rw [hload.1]
        rw [Bool.eq_false_iff]
        intro hsome
        have hmem := (LruCache.get_isSome s.cache p.1).1 hsome
        rw [hkeys] at hmem
        exact hhead (List.mem_reverse.1 hmem)
      rw [hmiss]
      have hrest : ((s.load p.1).2).loadSeq (l'.map Prod.fst) =
          List.replicate (l'.map Prod.fst).length true := by
        apply CacheBackend.loadSeq_all_hits
        intro a ha
        rw [hload.2]
        rw [LruCache.get_keyList_mem, hkeys]
        exact List.mem_reverse.2 ha
      rw [hrest]
      simp [hlen']
  · intro c k v hv
    have hload := CacheBackend.load_spec c k
    rw [hload.2]
    exact LruCache.get_hit_head c.cache k v (hload.1 ▸ hv)
  · intro c k v a hlen' hk ha
    show a ∈ (c.cache.put k v).keyList
    have hfilterlen : (c.cache.entries.filter (fun e => decide (e.1 ≠ k))).length <
        c.cache.entries.length := by
      rcases List.mem_map.1 hk with ⟨x, hx, hxk⟩
      apply List.length_filter_lt_length_iff_exists.2
      exact ⟨x, hx, by simp [hxk]⟩
    unfold LruCache.put
    have hnodrop : ¬ c.cache.cap <
        ((k, v) :: c.cache.entries.filter (fun e => decide (e.1 ≠ k))).length := by
      simp only [List.length_cons]
      omega
    simp only [if_neg hnodrop, LruCache.keyList, List.map_cons, List.mem_cons]
    by_cases hak : a = k
    · exact Or.inl hak
    · right
      rcases List.mem_map.1 ha with ⟨x, hx, hxa⟩
      refine List.mem_map.2 ⟨x, List.mem_filter.2 ⟨hx, ?_⟩, hxa⟩
      simp only [decide_eq_true_eq]
      exact fun hxk => hak (hxa ▸ hxk ▸ rfl)

/-- Witness for C2: capacity `2`, keys `0, 1, 2` stored in order; the load
scan gives miss, hit, hit. -/
theorem C2_witness :
    (([((0 : Nat), (10 : Nat)), (1, 11), (2, 12)].map Prod.fst).Nodup) ∧
    CacheBackend.loadSeq
      (CacheBackend.storeAll (CacheBackend.empty Nat Nat 2) [(0, 10), (1, 11), (2, 12)])
      ([((0 : Nat), (10 : Nat)), (1, 11), (2, 12)].map Prod.fst) =
      false :: List.replicate 2 true := by
  refine ⟨by decide, ?_⟩
  exact (C2_lru_fill_evicts_only_first Nat Nat 2 (by norm_num)
    [(0, 10), (1, 11), (2, 12)] (by decide) (by decide)).1

/-- C5 counterexample: the cache write succeeds and the Parquet write fails
with an ordinary error — exactly one tier succeeded — yet the operation
fails with the Parquet tier's own error, which carries no indication of
which tier succeeded. -/
theorem C5_counterexample_error_carries_no_tier :
    (HybridStorage.store (Except.ok ())
        (Except.error (StorageErr.message "disk full".data))).2 =
      Except.error (StorageErr.message "disk full".data) ∧
    StorageErr.indicatesTier (StorageErr.message "disk full".data) = false :=
  ⟨rfl, rfl⟩

/-- C5 amended: `store` attempts the cache tier first and the Parquet tier
only after the cache write succeeded; a cache failure propagates without
attempting Parquet, and a Parquet failure after a cache success propagates
the Parquet tier's own error unchanged (there is no dedicated one-tier-only
error); the operation succeeds exactly when both writes succeed. -/
theorem C5_hybrid_store_cache_first_raw_error (cacheRes coldRes : Except StorageErr Unit) :
    (HybridStorage.store cacheRes coldRes).1.head? = some Tier.cache ∧
    (∀ e, cacheRes = Except.error e →
      HybridStorage.store cacheRes coldRes = ([Tier.cache], Except.error e)) ∧
    (cacheRes = Except.ok () →
      HybridStorage.store cacheRes coldRes = ([Tier.cache, Tier.parquet], coldRes)) := by
  cases cacheRes with
  | error e =>
    refine ⟨rfl, ?_, ?_⟩
    · intro e' he'
      cases he'
      rfl
    · intro h
      cases h
  | ok u =>
    cases u
    refine ⟨rfl, ?_, fun _ => rfl⟩
    intro e' he'
    cases he'

/-- Witness for the amended C5: cache write succeeds, Parquet write fails —
both tiers are attempted in order and the raw Parquet error is returned. -/
theorem C5_witness :
    HybridStorage.store (Except.ok ()) (Except.error (StorageErr.message "x".data)) =
      ([Tier.cache, Tier.parquet], Except.error (StorageErr.message "x".data)) :=
  (C5_hybrid_store_cache_first_raw_error (Except.ok ())
    (Except.error (StorageErr.message "x".data))).2.2 rfl

/-- C4 failing input, proved against the embedded code: a Parquet file of
15,000 bytes holding 1,000 actual rows (the shape of the crate's own
`test_collect_batches` fixture), no pushdown.  The file-size heuristics give
`total_rows = 0` and one row group of `0` estimated rows, so the iterator
yields a single empty batch: the heights sum to `0`, not to the `1,000` rows
of the source (nor even to a consistent heuristic count on other inputs). -/
theorem C4_sum_of_heights_zero_on_small_file :
    AdaptiveStreamingReader.collect_batches_adaptive 15000
        (List.replicate 1000 (0 : Nat)) none = [Except.ok []] ∧
    heightsSum (AdaptiveStreamingReader.collect_batches_adaptive 15000
        (List.replicate 1000 (0 : Nat)) none) = 0 ∧
    (List.replicate 1000 (0 : Nat)).length = 1000 ∧
    MmapParquetReader.total_rows 15000 = 0 := by
  have hn : MmapParquetReader.num_row_groups 15000 = 1 := by
    norm_num [MmapParquetReader.num_row_groups]
  have ht : MmapParquetReader.total_rows 15000 = 0 := by
    norm_num [MmapParquetReader.total_rows]
  have hread : MmapParquetReader.read_row_group 15000 (List.replicate 1000 (0 : Nat)) 0 =
      Except.ok [] := by
    unfold MmapParquetReader.read_row_group MmapParquetReader.row_group_num_rows
    rw [hn, ht]
    norm_num
  have hone : AdaptiveBatchIterator.read_one 15000 (List.replicate 1000 (0 : Nat)) none 0 =
      Except.ok [] := by
    unfold AdaptiveBatchIterator.read_one
    rw [hread]
  have h1 : AdaptiveStreamingReader.collect_batches_adaptive 15000
      (List.replicate 1000 (0 : Nat)) none = [Except.ok []] := by
    unfold AdaptiveStreamingReader.collect_batches_adaptive
    rw [AdaptiveBatchIterator.run, dif_pos (by rw [hn]; norm_num), hone]
    show Except.ok [] :: AdaptiveBatchIterator.run 15000 (List.replicate 1000 (0 : Nat))
      none 1 = _
    rw [AdaptiveBatchIterator.run, dif_neg (by rw [hn]; norm_num)]
  refine ⟨h1, ?_, by rw [List.length_replicate], ht⟩
  rw [h1]
  rfl

/-- C9 counterexample: a stream that delivered one good batch `[0]` and then
one per-file error item.  `collect_concatenated` returns the error and
discards the good batch, instead of returning the concatenation of every
successfully produced batch. -/
theorem C9_counterexample_error_discards_batches :
    ParallelStreamReader.collect_concatenated
        [Except.ok [(0 : Nat)], Except.error (StreamingError.compute "bad file".data)] =
      Except.error (StreamingError.compute "bad file".data) ∧
    ParallelStreamReader.collect_concatenated
        [Except.ok [(0 : Nat)], Except.error (StreamingError.compute "bad file".data)] ≠
      Except.ok [(0 : Nat)] := by
  refine ⟨rfl, ?_⟩
  intro h
  rw [show ParallelStreamReader.collect_concatenated
      [Except.ok [(0 : Nat)], Except.error (StreamingError.compute "bad file".data)] =
      Except.error (StreamingError.compute "bad file".data) from rfl] at h
  exact Except.noConfusion h

theorem collectResults_all_ok {ε α : Type} (items : List (Except ε α))
    (hall : ∀ x ∈ items, isOkItem x = true) :
    collectResults items = Except.ok (items.filterMap Except.toOption) := by
  induction items with
  | nil => rfl
  | cons x rest ih =>
    cases x with
    | error e =>
      have hfalse := hall (Except.error e) (by simp)
      simp [isOkItem] at hfalse
    | ok a =>
      have hrest := ih (fun y hy => hall y (by simp [hy]))
      simp only [collectResults, hrest, List.filterMap_cons, Except.toOption]

theorem collectResults_first_error {ε α : Type} (pre : List (Except ε α)) (e : ε)
    (post : List (Except ε α)) (hpre : ∀ x ∈ pre, isOkItem x = true) :
    collectResults (pre ++ Except.error e :: post) = Except.error e := by
  induction pre with
  | nil => rfl
  | cons x rest ih =>
    cases x with
    | error e' =>
      have hfalse := hpre (Except.error e') (by simp)
      simp [isOkItem] at hfalse
    | ok a =>
      have hrest := ih (fun y hy => hpre y (by simp [hy]))
      simp only [List.cons_append, collectResults]
      have hrest' : collectResults (rest.append (Except.error e :: post)) = Except.error e :=
        hrest
      rw [hrest']

theorem filterMap_toOption_length {ε α : Type} (items : List (Except ε α))
    (hall : ∀ x ∈ items, isOkItem x = true) :
    (items.filterMap Except.toOption).length = items.length := by
  induction items with
  | nil => rfl
  | cons x rest ih =>
    cases x with
    | error e =>
      have hfalse := hall (Except.error e) (by simp)
      simp [isOkItem] at hfalse
    | ok a =>
      simp only [List.filterMap_cons, Except.toOption, List.length_cons]
      rw [ih (fun y hy => hall y (by simp [hy]))]

/-- C9 amended: `collect_concatenated` vertically stacks every batch when
every item of the stream succeeded (failing `NoData` when the stream is
empty); but any error item makes it fail with the first error, discarding
the other files' batches, because the items are collected through
`Result` semantics before concatenation. -/
theorem C9_collect_concatenated_first_error_wins {ρ : Type}
    (items : List (Except StreamingError (List ρ))) :
    (items = [] →
      ParallelStreamReader.collect_concatenated items =
        Except.error StreamingError.noData) ∧
    ((∀ x ∈ items, isOkItem x = true) → items ≠ [] →
      ParallelStreamReader.collect_concatenated items =
        Except.ok (vstackAll (items.filterMap Except.toOption))) ∧
    (∀ (pre : List (Except StreamingError (List ρ))) (e : StreamingError)
        (post : List (Except StreamingError (List ρ))),
      items = pre ++ Except.error e :: post → (∀ x ∈ pre, isOkItem x = true) →
      ParallelStreamReader.collect_concatenated items = Except.error e) := by
  refine ⟨?_, ?_, ?_⟩
  · rintro rfl
    rfl
  · intro hall hne
    unfold ParallelStreamReader.collect_concatenated
    rw [collectResults_all_ok items hall]
    have hlen := filterMap_toOption_length items hall
    have hne' : items.filterMap Except.toOption ≠ [] := by
      intro hnil
      apply hne
      have hlen0 := congrArg List.length hnil
      rw [hlen] at hlen0
      exact List.length_eq_zero.1 (by simpa using hlen0)
    obtain ⟨b, bs, hcons⟩ : ∃ b bs, items.filterMap Except.toOption = b :: bs := by
      cases hfm : items.filterMap Except.toOption with
      | nil => exact absurd hfm hne'
      | cons b bs => exact ⟨b, bs, rfl⟩
    rw [hcons]
    rfl
  · intro pre e post hsplit hpre
    unfold ParallelStreamReader.collect_concatenated
    rw [hsplit, collectResults_first_error pre e post hpre]

/-- Witness for the amended C9: a two-item all-success stream concatenates
both batches, and a stream whose second item is an error fails with it. -/
theorem C9_witness :
    ParallelStreamReader.collect_concatenated
        [Except.ok [(1 : Nat)], Except.ok [2]] = Except.ok [1, 2] ∧
    ParallelStreamReader.collect_concatenated
        [Except.ok [(1 : Nat)], Except.error StreamingError.noData] =
      Except.error StreamingError.noData := by
  constructor
  · have h := (C9_collect_concatenated_first_error_wins
      [Except.ok [(1 : Nat)], Except.ok [2]]).2.1
      (by intro x hx; fin_cases hx <;> rfl) (by simp)
    simpa [vstackAll, Except.toOption] using h
  · exact (C9_collect_concatenated_first_error_wins
      [Except.ok [(1 : Nat)], Except.error StreamingError.noData]).2.2
      [Except.ok [1]] StreamingError.noData [] rfl
      (by intro x hx; fin_cases hx <;> rfl)

/-- C7 counterexample: for the key `"a.b"` (no `".."`, no separator, no
whitespace) the claimed sanitization leaves the key unchanged, but the code
replaces the lone dot, so `store` creates `base/a_b.parquet`, not the
`base/a.b.parquet` the claim's description of sanitization yields. -/
theorem C7_counterexample_single_dot_replaced :
    ParquetBackend.key_to_path "base".data "a.b".data =
      Except.ok "base/a_b.parquet".data ∧
    claimSanitize "a.b".data = "a.b".data ∧
    ("base".data ++ "/".data ++ claimSanitize "a.b".data ++ ".parquet".data ≠
      "base/a_b.parquet".data) := by
  have h2 : claimSanitize "a.b".data = "a.b".data := by
    simp [claimSanitize, claimDotDot]
  refine ⟨rfl, h2, ?_⟩
  rw [h2]
  decide

/-- C7 amended: sanitization replaces every `'/'`, `'\'`, `'.'` and `' '`
character individually with `'_'` (so `".."` becomes `"__"`, and whitespace
other than the space character is kept); a successful `store` creates its
file only at `base_dir/<sanitized>.parquet`, which is always directly inside
`base_dir` — never outside it; and a key that sanitizes to the empty string
is rejected with an error. -/
theorem C7_store_path_inside_base (base key : Str) :
    (∀ p, ParquetBackend.key_to_path base key = Except.ok p →
      p = base ++ "/".data ++ key.map ParquetBackend.sanitizeChar ++ ".parquet".data ∧
      isDirectChildOf base p) ∧
    (key.map ParquetBackend.sanitizeChar = [] →
      ParquetBackend.sanitize_key key =
        Except.error "Invalid key: empty after sanitization".data) := by
  constructor
  · intro p hp
    unfold ParquetBackend.key_to_path ParquetBackend.sanitize_key at hp
    by_cases hempty : (key.map ParquetBackend.sanitizeChar).isEmpty
    · rw [if_pos hempty] at hp
      exact absurd hp (by simp)
    · rw [if_neg hempty] at hp
      simp only [Except.ok.injEq] at hp
      have hchars : ∀ c ∈ key.map ParquetBackend.sanitizeChar,
          c ≠ '/' ∧ c ≠ '\\' ∧ c ≠ '.' := by
        intro c hc
        rcases List.mem_map.1 hc with ⟨x, _, hxc⟩
        unfold ParquetBackend.sanitizeChar at hxc
        by_cases hx : x = '/' ∨ x = '\\' ∨ x = '.' ∨ x = ' '
        · rw [if_pos hx] at hxc
          rw [← hxc]
          refine ⟨by decide, by decide, by decide⟩
        · rw [if_neg hx] at hxc
          rw [← hxc]
          push_neg at hx
          exact ⟨hx.1, hx.2.1, hx.2.2.1⟩
      refine ⟨hp.symm, ?_⟩
      refine ⟨key.map ParquetBackend.sanitizeChar ++ ".parquet".data, ?_, ?_, ?_, ?_, ?_, ?_⟩
      · rw [← hp]
        simp [List.append_assoc]
      · simp
      · intro hmem
        rcases List.mem_append.1 hmem with hmem1 | hmem2
        · exact (hchars '/' hmem1).1 rfl
        · revert hmem2; decide
      · intro hmem
        rcases List.mem_append.1 hmem with hmem1 | hmem2
        · exact (hchars '\\' hmem1).2.1 rfl
        · revert hmem2; decide
      · intro heq
        have hlen := congrArg List.length heq
        simp only [List.length_append] at hlen
        have hpos : 0 < (key.map ParquetBackend.sanitizeChar).length := by
          cases hm : key.map ParquetBackend.sanitizeChar with
          | nil => rw [hm] at hempty; exact absurd rfl hempty
          | cons a t => simp [hm]
        rw [show (".".data).length = 1 from rfl, show (".parquet".data).length = 8 from rfl]
          at hlen
        omega
      · intro heq
        have hlen := congrArg List.length heq
        simp only [List.length_append] at hlen
        have hpos : 0 < (key.map ParquetBackend.sanitizeChar).length := by
          cases hm : key.map ParquetBackend.sanitizeChar with
          | nil => rw [hm] at hempty; exact absurd rfl hempty
          | cons a t => simp [hm]
        rw [show ("..".data).length = 2 from rfl, show (".parquet".data).length = 8 from rfl]
          at hlen
        omega
  · intro hempty
    unfold ParquetBackend.sanitize_key
    rw [if_pos (by rw [hempty]; rfl)]

/-- Witness for the amended C7: the traversal attempt `"../k"` sanitizes to
`"___k"` and the created file sits directly inside the base directory. -/
theorem C7_witness :
    ParquetBackend.key_to_path "b".data "../k".data =
      Except.ok "b/___k.parquet".data ∧
    isDirectChildOf "b".data "b/___k.parquet".data := by
  have h := (C7_store_path_inside_base "b".data "../k".data).1
    "b/___k.parquet".data rfl
  exact ⟨rfl, h.2⟩

/-- Witness for the amended C6: `heartbeat` on a concrete expired record
succeeds and sets `last_accessed` to `now = 10`. -/
theorem C6_heartbeat_witness :
    ((fun k => if k = "h1".data then
        some (⟨(42 : Nat), 2, 2, 3⟩ : DataFrameHandleInfo Nat) else none) "h1".data =
      some (⟨(42 : Nat), 2, 2, 3⟩ : DataFrameHandleInfo Nat)) ∧
    (HandleManager.heartbeat
      (fun k => if k = "h1".data then
        some (⟨(42 : Nat), 2, 2, 3⟩ : DataFrameHandleInfo Nat) else none) 10 "h1".data).2 =
      Except.ok () ∧
    (HandleManager.heartbeat
      (fun k => if k = "h1".data then
        some (⟨(42 : Nat), 2, 2, 3⟩ : DataFrameHandleInfo Nat) else none) 10 "h1".data).1
        "h1".data =
      some (⟨(42 : Nat), 2, 10, 3⟩ : DataFrameHandleInfo Nat) := by
  have h := (C6_heartbeat_refreshes_no_expiry_check
    (fun k => if k = "h1".data then
      some (⟨(42 : Nat), 2, 2, 3⟩ : DataFrameHandleInfo Nat) else none)
    10 "h1".data).2 ⟨(42 : Nat), 2, 2, 3⟩ rfl
  exact ⟨rfl, h.1, h.2.1⟩
